import Mathlib

/-!
# Verification of the live-collab-api real-time collaboration core

Shallow embedding of the Go sources of `live-collab-api`:
* `internal/websocket/handler.go` — WebSocket connection handling, the edit
  pipeline (`handleEditMessage`, `getCurrentDocumentVersion`, `persistEvent`,
  `applyEditToDocument`, `applyEdit`) and the connection access gate
  (`hasDocumentAccess`).
* `internal/websocket/hub.go` and its fuller revision (the variant with
  `Permission`, `user_join` / `user_leave` and `broadcastToDocumentExcept`) —
  the per-document registry (`registerClient`, `unregisterClient`,
  `broadcastToDocument`, `GetDocumentClientCount`).
* `internal/documents` service — `DocumentService.HasDocumentAccess`.

Modelling conventions:
* Go `int` is modelled as `Int` (version counters and text positions stay far
  from the 64-bit boundary in every statement below, so wrap-around is not
  modelled).
* Go strings are treated as their codepoint sequences (`List Char`), matching
  the `[]rune(content)` conversion in the source.
* A Go run-time fault (slice bound out of range, negative slice capacity) is
  modelled by `Option`: `none` is a crash, `some` a normal result.
* The SQL store is modelled as explicit state (`DBState`); fallible storage
  calls take a fault profile saying which call fails.
* Queues (`chan []byte`) are lists with a capacity; the non-blocking
  `select { case ch <- v: default: }` send succeeds exactly when the queue
  has room.  JSON marshalling of outbound messages is modelled as the
  identity on the message value (marshalling of these messages cannot fail).
* Lock acquisition is not modelled; each hub / handler operation is embedded
  as one sequential state transformation.
-/

namespace LiveCollab

/-- `EditEvent` from `hub.go`: the decoded payload of an `"edit"` message. -/
structure EditEvent where
  operation : String
  position : Int
  content : String
  length : Int
  deriving Repr, DecidableEq

/-- `Message` from `hub.go`: the wire envelope.  The `payload` field holds the
result of re-marshalling `message.Payload` and unmarshalling it into an
`EditEvent` (`handleEditMessage` lines 168–178); `none` models a decode
error. -/
structure Message where
  msgType : String
  documentId : Int
  userId : Int
  version : Int
  payload : Option EditEvent
  timestamp : Int
  deriving Repr, DecidableEq

/-- `applyEdit` from `handler.go` lines 264–295, over the codepoint sequence
`runes := []rune(content)`.  `none` models a Go run-time fault:
* in the `"insert"` branch a negative position reaches `runes[:edit.Position]`
  unclamped (only `edit.Position > len(runes)` is clamped);
* in the `"delete"` branch `make([]rune, 0, len(runes)-edit.Length)` faults on
  a negative capacity, and a negative `edit.Position` (or negative computed
  `endPosition`) faults in the slice expressions. -/
def applyEdit (content : String) (edit : EditEvent) : Option String :=
  let runes := content.toList
  match edit.operation with
  | "insert" =>
    let pos := if edit.position > (runes.length : Int) then (runes.length : Int)
               else edit.position
    if pos < 0 then none
    else
      some ((runes.take pos.toNat ++ edit.content.toList ++ runes.drop pos.toNat).asString)
  | "delete" =>
    if edit.position ≥ (runes.length : Int) then some content
    else
      let endPosition := if edit.position + edit.length > (runes.length : Int)
                         then (runes.length : Int)
                         else edit.position + edit.length
      if (runes.length : Int) - edit.length < 0 then none
      else if edit.position < 0 then none
      else if endPosition < 0 then none
      else some ((runes.take edit.position.toNat ++ runes.drop endPosition.toNat).asString)
  | _ => some content

/-- Modelled from the spec's words (§4.3): `insert(position, text)` clamps
`position` into `[0, length]` and returns
`prefix(0,position) ++ text ++ suffix(position,end)`.  Used only to compare
the spec's description with `applyEdit`. -/
def insertSpec (content : String) (position : Int) (text : String) : String :=
  let runes := content.toList
  let p := (max 0 (min position (runes.length : Int))).toNat
  (runes.take p ++ text.toList ++ runes.drop p).asString

/-- Modelled from the spec's words (§4.3): `delete(position, length)` is a
no-op if `position ≥ length(content)`, else removes
`[position, min(position+length, length(content)))`.  Used only to compare
the spec's description with `applyEdit`. -/
def deleteSpec (content : String) (position : Int) (length : Int) : String :=
  let runes := content.toList
  if position ≥ (runes.length : Int) then content
  else
    let e := min (position + length) (runes.length : Int)
    (runes.take position.toNat ++ runes.drop e.toNat).asString

example : applyEdit "Hello" ⟨"insert", 5, "World", 0⟩ = some "HelloWorld" := by decide
example : applyEdit "Hello World" ⟨"insert", 5, " Beautiful", 0⟩ =
    some "Hello Beautiful World" := by decide
example : applyEdit "Hello World" ⟨"delete", 5, "", 6⟩ = some "Hello" := by decide
example : applyEdit "Hello" ⟨"insert", -1, "X", 0⟩ = none := by decide
example : applyEdit "Hello" ⟨"delete", 0, "", 6⟩ = none := by decide

/-! ## The storage model and the edit pipeline (`handleEditMessage`) -/

/-- One row of the `events` table, with `version` standing for the
`payload->>'version'` figure that `persistEvent` stores and
`getCurrentDocumentVersion` reads back. -/
structure EventRow where
  documentId : Int
  userId : Int
  eventType : String
  version : Int
  deriving Repr, DecidableEq

/-- The storage touched by the edit pipeline: the `events` log and the
`documents.content` column (`contents` maps a document id to its content;
a missing id is a missing row). -/
structure DBState where
  events : List EventRow
  contents : List (Int × String)
  deriving Repr, DecidableEq

/-- Which storage calls of one `handleEditMessage` run fail. -/
structure DBFaults where
  versionReadFails : Bool
  persistFails : Bool
  contentReadFails : Bool
  contentWriteFails : Bool
  deriving Repr, DecidableEq

def noFaults : DBFaults := ⟨false, false, false, false⟩

/-- `COALESCE(MAX(...), 0)`: the maximum of a list of versions, `0` when the
list is empty. -/
def maxOr0 : List Int → Int
  | [] => 0
  | v :: rest => rest.foldl max v

/-- The pure value computed by the `getCurrentDocumentVersion` query
(`handler.go` lines 217–230): the maximum `payload->>'version'` over rows
with this `document_id` and `event_type = 'edit'`, `0` when there are none. -/
def currentDocVersion (db : DBState) (documentId : Int) : Int :=
  maxOr0 (((db.events.filter
    fun e => e.documentId = documentId ∧ e.eventType = "edit")).map (·.version))

/-- `getCurrentDocumentVersion` with its storage fault: on a query error the
caller aborts (`none`). -/
def getCurrentDocumentVersion (f : DBFaults) (db : DBState) (documentId : Int) :
    Option Int :=
  if f.versionReadFails then none else some (currentDocVersion db documentId)

/-- `persistEvent` (`handler.go` lines 232–249): appends a row
`(document_id, user_id, event_type = message.Type, payload)` whose payload
carries `message.Version`; `none` when the `INSERT` fails. -/
def persistEvent (f : DBFaults) (db : DBState) (m : Message) : Option DBState :=
  if f.persistFails then none
  else some { db with
    events := db.events ++ [⟨m.documentId, m.userId, m.msgType, m.version⟩] }

def lookupContent (db : DBState) (documentId : Int) : Option String :=
  (db.contents.find? fun p => p.1 = documentId).map (·.2)

def setContent (db : DBState) (documentId : Int) (c : String) : DBState :=
  { db with contents := db.contents.map fun p => if p.1 = documentId then (p.1, c) else p }

/-- Outcome of `applyEditToDocument`: a new state, an error return, or a Go
run-time fault inside `applyEdit`. -/
inductive ApplyResult
  | ok (db : DBState)
  | errored
  | crashed
  deriving Repr, DecidableEq

/-- `applyEditToDocument` (`handler.go` lines 251–262): read
`documents.content` (an absent row or a read fault is an error return),
compute `applyEdit`, write the result back. -/
def applyEditToDocument (f : DBFaults) (db : DBState) (documentId : Int)
    (edit : EditEvent) : ApplyResult :=
  if f.contentReadFails then .errored
  else match lookupContent db documentId with
  | none => .errored
  | some content =>
    match applyEdit content edit with
    | none => .crashed
    | some newContent =>
      if f.contentWriteFails then .errored
      else .ok (setContent db documentId newContent)

/-- The observable outcome of one `handleEditMessage` call: the storage state
it leaves behind, the messages it handed to `Hub.BroadcastMessage`, the
version it committed (`none` when nothing was persisted), and whether
`applyEdit` hit a run-time fault. -/
structure EditOutcome where
  db : DBState
  broadcasts : List Message
  assigned : Option Int
  crashed : Bool
  deriving Repr, DecidableEq

/-- `handleEditMessage` (`handler.go` lines 166–201): decode the payload,
read the current version, assign `current + 1`, persist, apply to the
snapshot, broadcast.  Every error path is an early return. -/
def handleEditMessage (f : DBFaults) (db : DBState) (m : Message) : EditOutcome :=
  match m.payload with
  | none => ⟨db, [], none, false⟩
  | some editEvent =>
    match getCurrentDocumentVersion f db m.documentId with
    | none => ⟨db, [], none, false⟩
    | some currentVersion =>
      let m' := { m with version := currentVersion + 1 }
      match persistEvent f db m' with
      | none => ⟨db, [], none, false⟩
      | some db1 =>
        match applyEditToDocument f db1 m'.documentId editEvent with
        | .crashed => ⟨db1, [], some m'.version, true⟩
        | .errored => ⟨db1, [], some m'.version, false⟩
        | .ok db2 => ⟨db2, [m'], some m'.version, false⟩

/-- Fault-free sequential processing of a list of edit messages, collecting
the committed versions in order. -/
def processEdits (db : DBState) : List Message → DBState × List Int
  | [] => (db, [])
  | m :: rest =>
    let o := handleEditMessage noFaults db m
    let r := processEdits o.db rest
    (r.1, (match o.assigned with | some v => [v] | none => []) ++ r.2)

/-! ## Version-assignment lemmas -/

lemma maxOr0_append_single (l : List Int) (x : Int) :
    maxOr0 (l ++ [x]) = if l = [] then x else max (maxOr0 l) x := by
  cases l with
  | nil => simp [maxOr0]
  | cons a t => simp [maxOr0, List.foldl_append]

lemma currentDocVersion_persist (db db' : DBState) (d u v : Int)
    (hev : db'.events = db.events ++ [⟨d, u, "edit", v⟩])
    (hlt : currentDocVersion db d < v) :
    currentDocVersion db' d = v := by
  unfold currentDocVersion at *
  rw [hev, List.filter_append, List.map_append]
  have hrow : (List.filter (fun e => decide (e.documentId = d ∧ e.eventType = "edit"))
      [(⟨d, u, "edit", v⟩ : EventRow)]) = [⟨d, u, "edit", v⟩] := by simp
  rw [hrow]
  simp only [List.map_cons, List.map_nil]
  rw [maxOr0_append_single]
  split
  · rfl
  · exact max_eq_right (le_of_lt hlt)

lemma currentDocVersion_congr (db db' : DBState) (d : Int)
    (hev : db'.events = db.events) : currentDocVersion db' d = currentDocVersion db d := by
  unfold currentDocVersion
  rw [hev]

/-- `applyEditToDocument` never touches the `events` log. -/
lemma applyEditToDocument_ok_events (f : DBFaults) (db : DBState) (d : Int)
    (e : EditEvent) (db' : DBState)
    (h : applyEditToDocument f db d e = .ok db') : db'.events = db.events := by
  unfold applyEditToDocument at h
  split at h
  · exact absurd h (by simp)
  · split at h
    · exact absurd h (by simp)
    · split at h
      · exact absurd h (by simp)
      · split at h
        · exact absurd h (by simp)
        · simp only [ApplyResult.ok.injEq] at h
          rw [← h]
          rfl

/-- What one fault-free `handleEditMessage` run with a decodable payload does
to the committed version: it assigns `current + 1` and leaves the store with
that as the new current version. -/
lemma handleEditMessage_commit (db : DBState) (m : Message) (e : EditEvent)
    (hp : m.payload = some e) (ht : m.msgType = "edit") :
    (handleEditMessage noFaults db m).assigned
        = some (currentDocVersion db m.documentId + 1) ∧
    currentDocVersion (handleEditMessage noFaults db m).db m.documentId
        = currentDocVersion db m.documentId + 1 := by
  have h1 : ∀ db1 : DBState,
      db1.events = db.events ++ [⟨m.documentId, m.userId, m.msgType,
        currentDocVersion db m.documentId + 1⟩] →
      currentDocVersion db1 m.documentId = currentDocVersion db m.documentId + 1 := by
    intro db1 hev
    refine currentDocVersion_persist db db1 m.documentId m.userId _ ?_ (by omega)
    rw [hev, ht]
  unfold handleEditMessage
  rw [hp]
  simp only [getCurrentDocumentVersion, noFaults, Bool.false_eq_true, if_false,
    persistEvent]
  constructor
  · split <;> rfl
  · split
    · exact h1 _ rfl
    · exact h1 _ rfl
    · next db2 heq =>
      have hev2 := applyEditToDocument_ok_events _ _ _ _ _ heq
      rw [currentDocVersion_congr _ _ _ hev2]
      exact h1 _ rfl

lemma handleEditMessage_skip (f : DBFaults) (db : DBState) (m : Message)
    (hp : m.payload = none) : handleEditMessage f db m = ⟨db, [], none, false⟩ := by
  unfold handleEditMessage
  rw [hp]

/-- Strengthened induction for strictly increasing committed versions. -/
lemma processEdits_strictMono (d : Int) :
    ∀ (ms : List Message) (db : DBState),
      (∀ m ∈ ms, m.documentId = d ∧ m.msgType = "edit") →
      List.Chain' (· < ·) (processEdits db ms).2 ∧
      ∀ v ∈ (processEdits db ms).2, currentDocVersion db d < v := by
  intro ms
  induction ms with
  | nil => intro db _; simp [processEdits]
  | cons m rest ih =>
    intro db hall
    obtain ⟨hd, ht⟩ := hall m (List.mem_cons_self m rest)
    have hrest := fun m' hm' => hall m' (List.mem_cons_of_mem m hm')
    rcases hp : m.payload with _ | e
    · have hskip := handleEditMessage_skip noFaults db m hp
      simp only [processEdits, hskip]
      exact ih db hrest
    · obtain ⟨ha, hcur⟩ := handleEditMessage_commit db m e hp ht
      rw [hd] at ha hcur
      obtain ⟨ihchain, ihlt⟩ := ih (handleEditMessage noFaults db m).db hrest
      simp only [processEdits, ha, List.singleton_append]
      constructor
      · rw [List.chain'_cons']
        refine ⟨?_, ihchain⟩
        intro y hy
        have hmem : y ∈ (processEdits (handleEditMessage noFaults db m).db rest).2 :=
          List.mem_of_mem_head? hy
        have := ihlt y hmem
        omega
      · intro v hv
        rcases List.mem_cons.mp hv with h | h
        · omega
        · have := ihlt v h
          omega

/-! ## Claims C1 and C3 -/

/-- C1: every edit message processed by `handleEditMessage` is assigned
`version = current + 1`, where `current` is the maximum version among
persisted `'edit'` events of the document (`0` when none exist); hence for
any sequence of successfully committed edits to one document the assigned
versions are strictly increasing. -/
theorem editVersion_currentPlusOne_and_strictMono :
    (∀ (f : DBFaults) (db : DBState) (m : Message) (v : Int),
        (handleEditMessage f db m).assigned = some v →
        v = currentDocVersion db m.documentId + 1) ∧
    (∀ (ms : List Message) (db : DBState) (d : Int),
        (∀ m ∈ ms, m.documentId = d ∧ m.msgType = "edit") →
        List.Chain' (· < ·) (processEdits db ms).2) := by
  constructor
  · intro f db m v h
    unfold handleEditMessage at h
    cases hp : m.payload with
    | none => rw [hp] at h; simp at h
    | some e =>
      rw [hp] at h
      simp only [getCurrentDocumentVersion, persistEvent] at h
      by_cases hv : f.versionReadFails
      · simp [hv] at h
      · simp only [hv, Bool.false_eq_true, if_false] at h
        by_cases hpf : f.persistFails
        · simp [hpf] at h
        · simp only [hpf, Bool.false_eq_true, if_false] at h
          split at h <;> simp_all
  · intro ms db d hall
    exact (processEdits_strictMono d ms db hall).1

/-- Witness for C1 at a concrete input: two edits committed to document 1 of
an empty store receive versions 1 and 2. -/
theorem editVersion_currentPlusOne_and_strictMono_witness :
    (1 = currentDocVersion ⟨[], [(1, "")]⟩ 1 + 1) ∧
    List.Chain' (· < ·) (processEdits ⟨[], [(1, "")]⟩
      [⟨"edit", 1, 7, 0, some ⟨"insert", 0, "a", 0⟩, 0⟩,
       ⟨"edit", 1, 8, 0, some ⟨"insert", 1, "b", 0⟩, 0⟩]).2 :=
  ⟨editVersion_currentPlusOne_and_strictMono.1 noFaults ⟨[], [(1, "")]⟩
      ⟨"edit", 1, 7, 0, some ⟨"insert", 0, "a", 0⟩, 0⟩ 1 (by decide),
   editVersion_currentPlusOne_and_strictMono.2
      [⟨"edit", 1, 7, 0, some ⟨"insert", 0, "a", 0⟩, 0⟩,
       ⟨"edit", 1, 8, 0, some ⟨"insert", 1, "b", 0⟩, 0⟩] ⟨[], [(1, "")]⟩ 1 (by decide)⟩

/-- C3: when event persistence fails, `handleEditMessage` aborts without
touching the stored state (snapshot unchanged) and without broadcasting
anything. -/
theorem persistFailure_noApply_noBroadcast :
    ∀ (f : DBFaults) (db : DBState) (m : Message), f.persistFails = true →
      (handleEditMessage f db m).db = db ∧
      (handleEditMessage f db m).broadcasts = [] := by
  intro f db m hpf
  unfold handleEditMessage
  cases hp : m.payload with
  | none => exact ⟨rfl, rfl⟩
  | some e =>
    simp only [getCurrentDocumentVersion, persistEvent, hpf, if_true]
    by_cases hv : f.versionReadFails <;> simp [hv]

/-- Witness for C3 at a concrete input: with the `INSERT` into `events`
failing, an edit of document 1 leaves the store as it was and broadcasts
nothing. -/
theorem persistFailure_noApply_noBroadcast_witness :
    (handleEditMessage ⟨false, true, false, false⟩ ⟨[], [(1, "Hello")]⟩
        ⟨"edit", 1, 7, 0, some ⟨"insert", 5, "World", 0⟩, 0⟩).db
      = ⟨[], [(1, "Hello")]⟩ ∧
    (handleEditMessage ⟨false, true, false, false⟩ ⟨[], [(1, "Hello")]⟩
        ⟨"edit", 1, 7, 0, some ⟨"insert", 5, "World", 0⟩, 0⟩).broadcasts = [] :=
  persistFailure_noApply_noBroadcast ⟨false, true, false, false⟩
    ⟨[], [(1, "Hello")]⟩ ⟨"edit", 1, 7, 0, some ⟨"insert", 5, "World", 0⟩, 0⟩ rfl

/-! ## Claims C4 and C5 -/

/-- C4 counterexample: at the negative position `-1` the claim's formula
(clamping into `[0, length]`) yields `"XHello"`, but `applyEdit` does not
clamp from below and hits the Go run-time fault `runes[:-1]` instead. -/
theorem applyEdit_insert_negative_counterexample :
    applyEdit "Hello" ⟨"insert", -1, "X", 0⟩ = none ∧
    insertSpec "Hello" (-1) "X" = "XHello" := by decide

/-- C4 (amended): for every insert edit with a non-negative position,
`applyEdit` clamps the position to at most the codepoint length and returns
`prefix ++ text ++ suffix` over the codepoint sequence, agreeing with the
spec's clamped formula; a negative position is not clamped (run-time fault). -/
theorem applyEdit_insert_nonneg (content : String) (edit : EditEvent)
    (hop : edit.operation = "insert") (hpos : 0 ≤ edit.position) :
    applyEdit content edit = some (insertSpec content edit.position edit.content) := by
  unfold applyEdit insertSpec
  rw [hop]
  have hlen : (0 : Int) ≤ (content.toList.length : Int) := Int.ofNat_nonneg _
  by_cases h : edit.position > (content.toList.length : Int)
  · simp only [h, if_true]
    rw [if_neg (by omega)]
    have hmx : max 0 (min edit.position (content.toList.length : Int))
        = (content.toList.length : Int) := by omega
    rw [hmx]
  · simp only [h, if_false]
    rw [if_neg (by omega)]
    have hmx : max 0 (min edit.position (content.toList.length : Int))
        = edit.position := by omega
    rw [hmx]

/-- Witness for C4 (amended) at the claim's own examples. -/
theorem applyEdit_insert_nonneg_witness :
    applyEdit "Hello" ⟨"insert", 5, "World", 0⟩
        = some (insertSpec "Hello" 5 "World") ∧
    insertSpec "Hello" 5 "World" = "HelloWorld" ∧
    applyEdit "Hello World" ⟨"insert", 5, " Beautiful", 0⟩
        = some (insertSpec "Hello World" 5 " Beautiful") ∧
    insertSpec "Hello World" 5 " Beautiful" = "Hello Beautiful World" :=
  ⟨applyEdit_insert_nonneg "Hello" ⟨"insert", 5, "World", 0⟩ rfl (by decide),
   by decide,
   applyEdit_insert_nonneg "Hello World" ⟨"insert", 5, " Beautiful", 0⟩ rfl (by decide),
   by decide⟩

/-- C5: the delete branch of `applyEdit` clamps `endPosition` to the content
length — showing the intent to support `length` overruns — but sizes its
result with `make([]rune, 0, len(runes)-edit.Length)`, whose capacity is
negative whenever `edit.Length > len(runes)`: a Go run-time fault where the
claim (and the spec's `min` formula) require `delete(0, 6)` on `"Hello"` to
return `""`.  The in-range example `delete(5, 6)` on `"Hello World"` works. -/
theorem applyEdit_delete_overrun_crashes :
    applyEdit "Hello" ⟨"delete", 0, "", 6⟩ = none ∧
    deleteSpec "Hello" 0 6 = "" ∧
    applyEdit "Hello World" ⟨"delete", 5, "", 6⟩ = some "Hello" := by decide

/-! ## Two concurrent `handleEditMessage` runs (claim C2)

`handleEditMessage` holds no lock: its storage calls are the atomic steps,
and two concurrent runs interleave them freely.  Each thread executes, in
order: payload decode + `getCurrentDocumentVersion` (one read), then
`persistEvent` with `version = read + 1`, then `applyEditToDocument`, then
`Hub.BroadcastMessage`.  A schedule is the sequence of thread choices. -/

/-- One in-flight `handleEditMessage` run: its message, its program counter
(`0` read, `1` persist, `2` apply, `3` broadcast, `4` done) and the version
figure its `getCurrentDocumentVersion` query returned. -/
structure EditThread where
  msg : Message
  pc : Nat
  readVal : Int
  deriving Repr, DecidableEq

/-- Shared storage plus the messages handed to the Hub. -/
structure EditWorld where
  db : DBState
  sent : List Message
  deriving Repr, DecidableEq

/-- One fault-free atomic step of a `handleEditMessage` run against the
shared storage (the steps of `handler.go` lines 166–201 in source order). -/
def stepThread (w : EditWorld) (t : EditThread) : EditWorld × EditThread :=
  match t.pc with
  | 0 =>
    match t.msg.payload with
    | none => (w, { t with pc := 4 })
    | some _ =>
      (w, { t with pc := 1, readVal := currentDocVersion w.db t.msg.documentId })
  | 1 =>
    let m' := { t.msg with version := t.readVal + 1 }
    ({ w with db := { w.db with events := w.db.events ++
        [⟨m'.documentId, m'.userId, m'.msgType, m'.version⟩] } },
     { t with pc := 2, msg := m' })
  | 2 =>
    match t.msg.payload with
    | none => (w, { t with pc := 4 })
    | some e =>
      match lookupContent w.db t.msg.documentId with
      | none => (w, { t with pc := 4 })
      | some content =>
        match applyEdit content e with
        | none => (w, { t with pc := 4 })
        | some newContent =>
          ({ w with db := setContent w.db t.msg.documentId newContent },
           { t with pc := 3 })
  | 3 => ({ w with sent := w.sent ++ [t.msg] }, { t with pc := 4 })
  | _ => (w, t)

/-- Two runs interleaved under a schedule (`true` steps the first run). -/
def runTwoEdits (w : EditWorld) (t1 t2 : EditThread) :
    List Bool → EditWorld × EditThread × EditThread
  | [] => (w, t1, t2)
  | c :: rest =>
    if c then
      let s := stepThread w t1
      runTwoEdits s.1 s.2 t2 rest
    else
      let s := stepThread w t2
      runTwoEdits s.1 t1 s.2 rest

/-- A fresh run for a message. -/
def mkThread (m : Message) : EditThread := ⟨m, 0, 0⟩

/-! ## Claim C2 -/

/-- C2 counterexample: `handleEditMessage` wraps no per-document exclusive
section around read-current-max-then-assign, so in the interleaving where
both runs execute their `getCurrentDocumentVersion` read before either
persists, the two edits of document 1 are both assigned version `1` — not
distinct. -/
theorem concurrentEdits_collide_counterexample :
    ((runTwoEdits ⟨⟨[], [(1, "")]⟩, []⟩
        (mkThread ⟨"edit", 1, 7, 0, some ⟨"insert", 0, "a", 0⟩, 0⟩)
        (mkThread ⟨"edit", 1, 8, 0, some ⟨"insert", 0, "b", 0⟩, 0⟩)
        [true, false, true, false, true, false, true, false]).2.1.msg.version = 1) ∧
    ((runTwoEdits ⟨⟨[], [(1, "")]⟩, []⟩
        (mkThread ⟨"edit", 1, 7, 0, some ⟨"insert", 0, "a", 0⟩, 0⟩)
        (mkThread ⟨"edit", 1, 8, 0, some ⟨"insert", 0, "b", 0⟩, 0⟩)
        [true, false, true, false, true, false, true, false]).2.2.msg.version = 1) := by
  decide

/-- C2 (amended): each concurrent edit is assigned the document's maximum
committed version *at the time of its own read* plus one.  When the two
runs are serialized (the first persists before the second reads) the
versions are `current+1` and `current+2`: distinct and strictly increasing.
But the code has no per-document exclusive section, and in the racing
interleaving (both read before either persists) both edits are assigned
`current+1`: a collision. -/
theorem twoEdits_serializedDistinct_racingCollide (db : DBState)
    (m1 m2 : Message) (d : Int) (e1 e2 : EditEvent)
    (hd1 : m1.documentId = d) (hd2 : m2.documentId = d)
    (ht1 : m1.msgType = "edit")
    (hp1 : m1.payload = some e1) (hp2 : m2.payload = some e2) :
    ((runTwoEdits ⟨db, []⟩ (mkThread m1) (mkThread m2)
        [true, true, false, false]).2.1.msg.version
          = currentDocVersion db d + 1 ∧
     (runTwoEdits ⟨db, []⟩ (mkThread m1) (mkThread m2)
        [true, true, false, false]).2.2.msg.version
          = currentDocVersion db d + 2) ∧
    ((runTwoEdits ⟨db, []⟩ (mkThread m1) (mkThread m2)
        [true, false, true, false]).2.1.msg.version
          = currentDocVersion db d + 1 ∧
     (runTwoEdits ⟨db, []⟩ (mkThread m1) (mkThread m2)
        [true, false, true, false]).2.2.msg.version
          = currentDocVersion db d + 1) := by
  subst hd1
  have hpersisted : currentDocVersion
      { db with events := db.events ++ [⟨m1.documentId, m1.userId, m1.msgType,
          currentDocVersion db m1.documentId + 1⟩] } m1.documentId
        = currentDocVersion db m1.documentId + 1 := by
    refine currentDocVersion_persist db _ m1.documentId m1.userId _ ?_ (by omega)
    rw [ht1]
  simp [runTwoEdits, stepThread, mkThread, hp1, hp2, hd2, hpersisted]
  omega

/-- Witness for C2 (amended) at a concrete input: two edits of document 1 of
an empty store get versions 1 and 2 when serialized, and both get version 1
in the racing interleaving. -/
theorem twoEdits_serializedDistinct_racingCollide_witness :
    ((runTwoEdits ⟨⟨[], []⟩, []⟩
        (mkThread ⟨"edit", 1, 7, 0, some ⟨"insert", 0, "a", 0⟩, 0⟩)
        (mkThread ⟨"edit", 1, 8, 0, some ⟨"insert", 0, "b", 0⟩, 0⟩)
        [true, true, false, false]).2.1.msg.version
          = currentDocVersion ⟨[], []⟩ 1 + 1 ∧
     (runTwoEdits ⟨⟨[], []⟩, []⟩
        (mkThread ⟨"edit", 1, 7, 0, some ⟨"insert", 0, "a", 0⟩, 0⟩)
        (mkThread ⟨"edit", 1, 8, 0, some ⟨"insert", 0, "b", 0⟩, 0⟩)
        [true, true, false, false]).2.2.msg.version
          = currentDocVersion ⟨[], []⟩ 1 + 2) ∧
    ((runTwoEdits ⟨⟨[], []⟩, []⟩
        (mkThread ⟨"edit", 1, 7, 0, some ⟨"insert", 0, "a", 0⟩, 0⟩)
        (mkThread ⟨"edit", 1, 8, 0, some ⟨"insert", 0, "b", 0⟩, 0⟩)
        [true, false, true, false]).2.1.msg.version
          = currentDocVersion ⟨[], []⟩ 1 + 1 ∧
     (runTwoEdits ⟨⟨[], []⟩, []⟩
        (mkThread ⟨"edit", 1, 7, 0, some ⟨"insert", 0, "a", 0⟩, 0⟩)
        (mkThread ⟨"edit", 1, 8, 0, some ⟨"insert", 0, "b", 0⟩, 0⟩)
        [true, false, true, false]).2.2.msg.version
          = currentDocVersion ⟨[], []⟩ 1 + 1) :=
  twoEdits_serializedDistinct_racingCollide ⟨[], []⟩
    ⟨"edit", 1, 7, 0, some ⟨"insert", 0, "a", 0⟩, 0⟩
    ⟨"edit", 1, 8, 0, some ⟨"insert", 0, "b", 0⟩, 0⟩ 1
    ⟨"insert", 0, "a", 0⟩ ⟨"insert", 0, "b", 0⟩ rfl rfl rfl rfl rfl

/-! ## Connection admission (`HandleWebSocket`, `hasDocumentAccess`) -/

/-- The rows read by the access checks: `documents (id, owner_id)` and
`document_collaborators (document_id, user_id, permission)`. -/
structure AccessDB where
  owners : List (Int × Int)
  collaborators : List (Int × Int × String)
  deriving Repr, DecidableEq

/-- `WebSocketHandler.hasDocumentAccess` (`handler.go` lines 207–215): reads
`owner_id` of the document (any query error, including no such row, yields
`false`) and compares it with `userId`.  It never consults
`document_collaborators`. -/
def hasDocumentAccess (db : AccessDB) (userId documentId : Int) : Bool :=
  match db.owners.find? fun p => p.1 = documentId with
  | none => false
  | some p => p.2 = userId

namespace DocumentService

/-- `DocumentService.HasDocumentAccess` (documents service): `EXISTS` of an
owner row for `(documentId, userId)` or a collaborator row at any
permission level. -/
def HasDocumentAccess (db : AccessDB) (userId documentId : Int) : Bool :=
  (db.owners.any fun p => p.1 = documentId ∧ p.2 = userId) ||
  (db.collaborators.any fun c => c.1 = documentId ∧ c.2.1 = userId)

end DocumentService

/-- The structured error bodies `HandleWebSocket` can write before the
upgrade. -/
inductive WsResponse
  | badRequest
  | unauthorized
  | forbidden
  deriving Repr, DecidableEq

/-- What one `HandleWebSocket` call did: the JSON error responses it wrote,
and the `(documentId, userId)` client it handed to `Hub.register` (if any). -/
structure WsOutcome where
  responses : List WsResponse
  registered : Option (Int × Int)
  deriving Repr, DecidableEq

/-- `WebSocketHandler.HandleWebSocket` (`handler.go` lines 44–84).
`documentIdParam` is the `strconv.Atoi` result for the path parameter;
`authResult` is `GetUserIDFromGinContext` (which returns `0` together with
every error); `upgradeSucceeds` is the WebSocket upgrade.  The source writes
the `401` response on an authentication error but lacks a `return` there, so
execution continues with `userId = 0` into the access check. -/
def HandleWebSocket (db : AccessDB) (documentIdParam : Option Int)
    (authResult : Except Unit Int) (upgradeSucceeds : Bool) : WsOutcome :=
  match documentIdParam with
  | none => ⟨[.badRequest], none⟩
  | some documentId =>
    let userId : Int := match authResult with | .ok u => u | .error _ => 0
    let errResponses : List WsResponse :=
      match authResult with | .ok _ => [] | .error _ => [.unauthorized]
    if ¬ hasDocumentAccess db userId documentId then
      ⟨errResponses ++ [.forbidden], none⟩
    else if ¬ upgradeSucceeds then ⟨errResponses, none⟩
    else ⟨errResponses, some (documentId, userId)⟩

/-! ## Claims C6 and C7 -/

/-- C6: `HandleWebSocket` writes the `401` body on a failed authentication
but is missing the `return`, so it continues with the zero-value
`userId = 0`: for a document whose `owner_id` is `0` the connection is
upgraded and registered in the Hub despite the rejection; for any other
document the handler writes a second structured body (`403`) on top of the
`401`. -/
theorem handleWebSocket_missingReturn_registers :
    HandleWebSocket ⟨[(7, 0)], []⟩ (some 7) (.error ()) true
      = ⟨[.unauthorized], some (7, 0)⟩ ∧
    HandleWebSocket ⟨[(7, 1)], []⟩ (some 7) (.error ()) true
      = ⟨[.unauthorized, .forbidden], none⟩ := by decide

/-- C7: the access check used to admit a connection
(`WebSocketHandler.hasDocumentAccess`) compares `owner_id` only: it denies a
listed `"edit"` collaborator and a listed `"view"` collaborator of document
1, although `DocumentService.HasDocumentAccess` (the owner-or-collaborator
check the claim describes, pinned by the repository's own tests) admits
both; the owner is admitted by both. -/
theorem hasDocumentAccess_ignores_collaborators :
    hasDocumentAccess ⟨[(1, 1)], [(1, 2, "edit")]⟩ 2 1 = false ∧
    DocumentService.HasDocumentAccess ⟨[(1, 1)], [(1, 2, "edit")]⟩ 2 1 = true ∧
    hasDocumentAccess ⟨[(1, 1)], [(1, 3, "view")]⟩ 3 1 = false ∧
    DocumentService.HasDocumentAccess ⟨[(1, 1)], [(1, 3, "view")]⟩ 3 1 = true ∧
    hasDocumentAccess ⟨[(1, 1)], [(1, 2, "edit")]⟩ 1 1 = true ∧
    hasDocumentAccess ⟨[(1, 1)], [(1, 2, "edit")]⟩ 4 1 = false := by decide

/-! ## The Hub registry

The repository carries two revisions of the hub.  `broadcastToDocument` and
`GetDocumentClientCount` are line-identical in both.  `registerClient` and
`unregisterClient` below embed the revision in
`internal/websocket/hub.go`, which is free of lock re-entry: its
`registerClient` sends only a payload-less `"connected"` confirmation (no
`"user_join"`), and its `unregisterClient` sends nothing (no
`"user_leave"`).  The other revision (the one carrying `Permission`,
`"user_join"`/`"user_leave"` and `broadcastToDocumentExcept`) calls
`broadcastToDocumentExcept` — which takes `h.mutex.RLock()` — while still
holding `h.mutex.Lock()`; Go's `sync.RWMutex` is not reentrant, so that
call blocks forever.  That revision is embedded separately below with the
lock discipline made explicit (`registerClientJoinRevision`,
`unregisterClientJoinRevision`).

`h.clients : map[int]map[string]*Client` is an association list keyed by
document id; each client's `Send` channel is a queue with a capacity, and
the non-blocking `select { case client.Send <- data: default: ... }` send
succeeds exactly when the queue has room — the `default` branch closes the
queue and deletes the client from the set. -/

/-- Payload shapes the hub puts on the wire. -/
inductive WirePayload
  | empty
  | joinInfo (userId : Int) (permission : String)
  | leaveInfo (userId : Int)
  | connInfo (clientId : String) (permission : String) (activeUsers : Nat)
  deriving Repr, DecidableEq

/-- A serialized outbound message (JSON marshalling of these messages cannot
fail and is modelled as the identity). -/
structure WireMsg where
  msgType : String
  documentId : Int
  userId : Int
  payload : WirePayload
  deriving Repr, DecidableEq

/-- A registered `Client`: identity fields plus its outbound queue. -/
structure CEntry where
  id : String
  documentId : Int
  userId : Int
  permission : String
  queue : List WireMsg
  cap : Nat
  deriving Repr, DecidableEq

/-- `Hub.clients`: `{documentId -> {clientId -> Client}}`. -/
abbrev Registry := List (Int × List CEntry)

/-- `h.clients[d]` (`nil` when the key is absent). -/
def lookupDoc (h : Registry) (d : Int) : Option (List CEntry) :=
  (h.find? fun p => p.1 = d).map (·.2)

/-- `h.clients[d] = s`: replace the first binding of `d`, or add one. -/
def setDoc : Registry → Int → List CEntry → Registry
  | [], d, s => [(d, s)]
  | (k, v) :: rest, d, s =>
    if k = d then (k, s) :: rest else (k, v) :: setDoc rest d s

/-- `delete(h.clients, d)`. -/
def dropDoc (h : Registry) (d : Int) : Registry := h.filter fun p => p.1 ≠ d

/-- The client set of `d`, as iterated by the hub loops (empty when the key
is absent). -/
def docSet (h : Registry) (d : Int) : List CEntry := (lookupDoc h d).getD []

/-- The send loop of `broadcastToDocument`: a non-blocking send to every
client; a full queue closes that client's queue and deletes it from the
set. -/
def deliverAll (s : List CEntry) (m : WireMsg) : List CEntry :=
  s.filterMap fun c =>
    if c.queue.length < c.cap then some { c with queue := c.queue ++ [m] } else none

/-- The send loop of `broadcastToDocumentExcept`: as `deliverAll`, skipping
(and keeping) the excluded client id. -/
def deliverAllExcept (s : List CEntry) (m : WireMsg) (exceptId : String) :
    List CEntry :=
  s.filterMap fun c =>
    if c.id = exceptId then some c
    else if c.queue.length < c.cap then some { c with queue := c.queue ++ [m] }
    else none

/-- `Hub.broadcastToDocument`. -/
def broadcastToDocument (h : Registry) (m : WireMsg) : Registry :=
  match lookupDoc h m.documentId with
  | none => h
  | some s => setDoc h m.documentId (deliverAll s m)

/-- `Hub.broadcastToDocumentExcept`. -/
def broadcastToDocumentExcept (h : Registry) (m : WireMsg) (exceptId : String) :
    Registry :=
  match lookupDoc h m.documentId with
  | none => h
  | some s => setDoc h m.documentId (deliverAllExcept s m exceptId)

/-- The `"user_join"` notification the `user_join` hub revision builds for
a new client. -/
def userJoinMsg (c : CEntry) : WireMsg :=
  ⟨"user_join", c.documentId, c.userId, .joinInfo c.userId c.permission⟩

/-- The `"connected"` confirmation the `user_join` hub revision builds
(`active_users` is the set size at construction time). -/
def connectedMsg (c : CEntry) (activeUsers : Nat) : WireMsg :=
  ⟨"connected", c.documentId, c.userId, .connInfo c.id c.permission activeUsers⟩

/-- The `"user_leave"` notification the `user_join` hub revision builds. -/
def userLeaveMsg (c : CEntry) : WireMsg :=
  ⟨"user_leave", c.documentId, c.userId, .leaveInfo c.userId⟩

/-- The payload-less `"connected"` confirmation of `hub.go`'s
`registerClient` (only `Type`, `DocumentId` and `UserId` are set). -/
def hubConfirmMsg (c : CEntry) : WireMsg :=
  ⟨"connected", c.documentId, c.userId, .empty⟩

/-- The `"connected"` confirmation step of `registerClient`: a non-blocking
send to the new client only — a full queue closes it and deletes the client
from the set again; every other client is left untouched. -/
def confirmLoop (s : List CEntry) (cid : String) (confirm : WireMsg) :
    List CEntry :=
  s.filterMap fun x =>
    if x.id = cid then
      if x.queue.length < x.cap then some { x with queue := x.queue ++ [confirm] }
      else none
    else some x

/-- `Hub.registerClient` (`hub.go` lines 68–96): create the document's set
if absent, insert the client (map insert: an entry under the same id is
overwritten), and send the payload-less `"connected"` confirmation to the
new client with a non-blocking send.  No `"user_join"` is sent in this
revision. -/
def registerClient (h : Registry) (c : CEntry) : Registry :=
  setDoc h c.documentId
    (confirmLoop (((docSet h c.documentId).filter fun x => x.id ≠ c.id) ++ [c])
      c.id (hubConfirmMsg c))

/-- `Hub.unregisterClient` (`hub.go` lines 98–116): if the client is in its
document's set, delete it, close its queue, and delete the set if it is now
empty.  No `"user_leave"` is sent in this revision.  Idempotent: an absent
client changes nothing. -/
def unregisterClient (h : Registry) (c : CEntry) : Registry :=
  match lookupDoc h c.documentId with
  | none => h
  | some s =>
    if s.any fun x => x.id = c.id then
      if ((s.filter fun x => x.id ≠ c.id).length) = 0
      then dropDoc (setDoc h c.documentId (s.filter fun x => x.id ≠ c.id))
        c.documentId
      else setDoc h c.documentId (s.filter fun x => x.id ≠ c.id)
    else h

/-- `Hub.GetDocumentClientCount`. -/
def GetDocumentClientCount (h : Registry) (d : Int) : Nat :=
  match lookupDoc h d with
  | none => 0
  | some s => s.length

/-! ### The `user_join` hub revision, with the `sync.RWMutex` discipline

In that revision `registerClient` and `unregisterClient` run under
`h.mutex.Lock()` and call `broadcastToDocumentExcept`, which opens with
`h.mutex.RLock()`.  Go's `sync.RWMutex` is not reentrant: an `RLock`
attempted while the same goroutine holds the write lock blocks until the
write lock is released — which never happens here, since the blocked call
is what the lock holder is waiting on.  The hub goroutine is wedged
forever; the mutations made before the call remain, nothing is ever
sent, and no further hub operation is processed. -/

/-- What the single hub goroutine currently holds of `h.mutex`. -/
inductive MutexHold
  | free
  | writeHeld
  deriving Repr, DecidableEq

/-- Outcome of a hub-revision operation with locking modelled: `returned h`
is a normal return, `blocked h` means the goroutine is parked forever on a
lock acquisition with the registry contents at `h`. -/
inductive LockedOutcome
  | returned (h : Registry)
  | blocked (h : Registry)
  deriving Repr, DecidableEq

/-- `broadcastToDocumentExcept` of the `user_join` revision, with its
opening `h.mutex.RLock()`: blocks forever when the caller already holds the
write lock, otherwise behaves as the lock-free embedding. -/
def broadcastToDocumentExceptLocked (hold : MutexHold) (h : Registry)
    (m : WireMsg) (eid : String) : LockedOutcome :=
  match hold with
  | .writeHeld => .blocked h
  | .free => .returned (broadcastToDocumentExcept h m eid)

/-- `Hub.registerClient` of the `user_join` revision: under
`h.mutex.Lock()` it inserts the client, then calls
`broadcastToDocumentExcept` with the `"user_join"` notification — which
blocks forever on `h.mutex.RLock()`.  The `"connected"` confirmation send
that follows in the source is unreachable. -/
def registerClientJoinRevision (h : Registry) (c : CEntry) : LockedOutcome :=
  match broadcastToDocumentExceptLocked .writeHeld
    (setDoc h c.documentId
      (((docSet h c.documentId).filter fun x => x.id ≠ c.id) ++ [c]))
    (userJoinMsg c) c.id with
  | .blocked h' => .blocked h'
  | .returned h2 =>
    .returned (setDoc h2 c.documentId
      (confirmLoop (docSet h2 c.documentId) c.id
        (connectedMsg c (docSet h2 c.documentId).length)))

/-- `Hub.unregisterClient` of the `user_join` revision: under
`h.mutex.Lock()`, a found client is deleted and its queue closed, then
`broadcastToDocumentExcept` is called with the `"user_leave"` notification
— which blocks forever on `h.mutex.RLock()`.  The empty-set cleanup that
follows in the source is unreachable.  An absent client returns
unchanged. -/
def unregisterClientJoinRevision (h : Registry) (c : CEntry) : LockedOutcome :=
  match lookupDoc h c.documentId with
  | none => .returned h
  | some s =>
    if s.any fun x => x.id = c.id then
      match broadcastToDocumentExceptLocked .writeHeld
        (setDoc h c.documentId (s.filter fun x => x.id ≠ c.id))
        (userLeaveMsg c) c.id with
      | .blocked h' => .blocked h'
      | .returned h2 =>
        if (docSet h2 c.documentId).length = 0
        then .returned (dropDoc h2 c.documentId)
        else .returned h2
    else .returned h

/-! ## Registry lemmas -/

lemma lookupDoc_cons (k : Int) (v : List CEntry) (t : Registry) (d : Int) :
    lookupDoc ((k, v) :: t) d = if k = d then some v else lookupDoc t d := by
  by_cases hk : k = d <;> simp [lookupDoc, List.find?_cons, hk]

lemma lookupDoc_setDoc_self (h : Registry) (d : Int) (s : List CEntry) :
    lookupDoc (setDoc h d s) d = some s := by
  induction h with
  | nil => simp [setDoc, lookupDoc_cons]
  | cons p t ih =>
    obtain ⟨k, v⟩ := p
    by_cases hk : k = d
    · subst hk; simp [setDoc, lookupDoc_cons]
    · simp [setDoc, hk, lookupDoc_cons, ih]

lemma lookupDoc_setDoc_ne (h : Registry) (d d' : Int) (s : List CEntry)
    (hne : d' ≠ d) : lookupDoc (setDoc h d s) d' = lookupDoc h d' := by
  have hdd : ¬ (d = d') := fun hh => hne hh.symm
  induction h with
  | nil => simp [setDoc, lookupDoc_cons, hdd, lookupDoc]
  | cons p t ih =>
    obtain ⟨k, v⟩ := p
    by_cases hk : k = d
    · subst hk
      simp [setDoc, lookupDoc_cons, hdd]
    · simp [setDoc, hk, lookupDoc_cons, ih]

lemma docSet_setDoc_self (h : Registry) (d : Int) (s : List CEntry) :
    docSet (setDoc h d s) d = s := by
  simp [docSet, lookupDoc_setDoc_self]

lemma setDoc_setDoc (h : Registry) (d : Int) (s s' : List CEntry) :
    setDoc (setDoc h d s) d s' = setDoc h d s' := by
  induction h with
  | nil => simp [setDoc]
  | cons p t ih =>
    obtain ⟨k, v⟩ := p
    by_cases hk : k = d <;> simp [setDoc, hk, ih]

lemma deliverAll_room (s : List CEntry) (m : WireMsg)
    (hroom : ∀ x ∈ s, x.queue.length < x.cap) :
    deliverAll s m = s.map fun x => { x with queue := x.queue ++ [m] } := by
  induction s with
  | nil => rfl
  | cons a t ih =>
    have ha := hroom a (by simp)
    simp only [deliverAll, List.filterMap_cons, if_pos ha, List.map_cons]
    have := ih fun x hx => hroom x (by simp [hx])
    simp only [deliverAll] at this
    rw [this]

lemma deliverAllExcept_fresh (s : List CEntry) (m : WireMsg) (eid : String)
    (hid : ∀ x ∈ s, x.id ≠ eid)
    (hroom : ∀ x ∈ s, x.queue.length < x.cap) :
    deliverAllExcept s m eid = s.map fun x => { x with queue := x.queue ++ [m] } := by
  induction s with
  | nil => rfl
  | cons a t ih =>
    have ha := hroom a (by simp)
    have hia := hid a (by simp)
    simp only [deliverAllExcept, List.filterMap_cons, if_neg hia, if_pos ha,
      List.map_cons]
    have := ih (fun x hx => hid x (by simp [hx])) fun x hx => hroom x (by simp [hx])
    simp only [deliverAllExcept] at this
    rw [this]

lemma deliverAllExcept_append_self (s : List CEntry) (m : WireMsg) (c : CEntry)
    (hid : ∀ x ∈ s, x.id ≠ c.id)
    (hroom : ∀ x ∈ s, x.queue.length < x.cap) :
    deliverAllExcept (s ++ [c]) m c.id
      = (s.map fun x => { x with queue := x.queue ++ [m] }) ++ [c] := by
  unfold deliverAllExcept
  rw [List.filterMap_append]
  have h1 := deliverAllExcept_fresh s m c.id hid hroom
  unfold deliverAllExcept at h1
  rw [h1]
  simp

lemma broadcastToDocument_found (h : Registry) (m : WireMsg) (s : List CEntry)
    (hs : lookupDoc h m.documentId = some s) :
    broadcastToDocument h m = setDoc h m.documentId (deliverAll s m) := by
  unfold broadcastToDocument
  rw [hs]

lemma broadcastToDocument_absent (h : Registry) (m : WireMsg)
    (hs : lookupDoc h m.documentId = none) : broadcastToDocument h m = h := by
  unfold broadcastToDocument
  rw [hs]

lemma broadcastToDocumentExcept_found (h : Registry) (m : WireMsg)
    (eid : String) (s : List CEntry) (hs : lookupDoc h m.documentId = some s) :
    broadcastToDocumentExcept h m eid
      = setDoc h m.documentId (deliverAllExcept s m eid) := by
  unfold broadcastToDocumentExcept
  rw [hs]

/-- The `"connected"` confirmation loop leaves clients with other ids
untouched. -/
lemma confirmLoop_skips_others (l : List CEntry) (cid : String) (w : WireMsg)
    (hid : ∀ x ∈ l, x.id ≠ cid) : confirmLoop l cid w = l := by
  induction l with
  | nil => rfl
  | cons a t ih =>
    have hia := hid a (by simp)
    simp only [confirmLoop, List.filterMap_cons, if_neg hia]
    have := ih fun x hx => hid x (by simp [hx])
    simp only [confirmLoop] at this
    rw [this]

lemma confirmLoop_append_self (s : List CEntry) (c : CEntry) (w : WireMsg)
    (hid : ∀ x ∈ s, x.id ≠ c.id) (hq : c.queue = []) (hcap : 0 < c.cap) :
    confirmLoop (s ++ [c]) c.id w = s ++ [{ c with queue := [w] }] := by
  unfold confirmLoop
  rw [List.filterMap_append]
  have h1 := confirmLoop_skips_others s c.id w hid
  unfold confirmLoop at h1
  rw [h1]
  simp [hq, hcap]

/-- A calm registration (fresh id, empty queue, positive capacity) against
the `hub.go` revision appends the new client, holding exactly its
payload-less `"connected"` confirmation; the peers are untouched. -/
lemma registerClient_calm (h : Registry) (c : CEntry)
    (hfresh : ∀ x ∈ docSet h c.documentId, x.id ≠ c.id)
    (hq : c.queue = []) (hcap : 0 < c.cap) :
    registerClient h c = setDoc h c.documentId
      (docSet h c.documentId ++ [{ c with queue := [hubConfirmMsg c] }]) := by
  have hs1 : ((docSet h c.documentId).filter fun x => x.id ≠ c.id)
      = docSet h c.documentId := by
    rw [List.filter_eq_self]
    intro a ha
    simpa using hfresh a ha
  unfold registerClient
  rw [hs1, confirmLoop_append_self _ _ _ hfresh hq hcap]

/-! ## Claim C8 -/

/-- C8: the hub revision that builds `"user_join"` notifications
(`registerClientJoinRevision`) self-deadlocks on every registration: it
inserts client `"a"` into document 1's set, then calls
`broadcastToDocumentExcept`, whose `h.mutex.RLock()` blocks forever under
the `h.mutex.Lock()` the function still holds — so the already-registered
`"b"` never receives a `"user_join"` and `"a"` never receives its
`"connected"` (both queues are empty in the blocked state, and the hub
goroutine processes nothing further).  The other hub revision
(`registerClient`, from `hub.go`) does not deadlock but sends no
`"user_join"` at all and only a payload-less `"connected"` to `"a"`. -/
theorem registerJoinRevision_deadlocks :
    registerClientJoinRevision [(1, [⟨"b", 1, 2, "edit", [], 8⟩])]
        ⟨"a", 1, 3, "view", [], 8⟩
      = .blocked [(1, [⟨"b", 1, 2, "edit", [], 8⟩, ⟨"a", 1, 3, "view", [], 8⟩])] ∧
    registerClient [(1, [⟨"b", 1, 2, "edit", [], 8⟩])] ⟨"a", 1, 3, "view", [], 8⟩
      = [(1, [⟨"b", 1, 2, "edit", [], 8⟩,
              ⟨"a", 1, 3, "view", [⟨"connected", 1, 3, .empty⟩], 8⟩])] := by decide

/-! ## Claim C9 -/

/-- C9 counterexample: client `"a"` of document 1 has a saturated queue
(one pending message, capacity 1) and `"b"` has room.  The broadcast closes
and removes `"a"` and delivers to `"b"` — but no `"user_leave"` reaches
`"b"` (its queue holds exactly the broadcast message), and the follow-up
`unregisterClient` for `"a"` finds it already gone and changes nothing, so
the remaining peer is never notified of the departure, contrary to the
claim. -/
theorem broadcastEviction_noDepartureNotice_counterexample :
    broadcastToDocument
        [(1, [⟨"a", 1, 1, "edit", [⟨"cursor", 1, 1, .empty⟩], 1⟩,
              ⟨"b", 1, 2, "edit", [], 8⟩])]
        ⟨"edit", 1, 9, .empty⟩
      = [(1, [⟨"b", 1, 2, "edit", [⟨"edit", 1, 9, .empty⟩], 8⟩])] ∧
    ((docSet (broadcastToDocument
        [(1, [⟨"a", 1, 1, "edit", [⟨"cursor", 1, 1, .empty⟩], 1⟩,
              ⟨"b", 1, 2, "edit", [], 8⟩])]
        ⟨"edit", 1, 9, .empty⟩) 1).all
      fun x => x.queue.all fun w => w.msgType ≠ "user_leave") = true ∧
    unregisterClient [(1, [⟨"b", 1, 2, "edit", [⟨"edit", 1, 9, .empty⟩], 8⟩])]
        ⟨"a", 1, 1, "edit", [⟨"cursor", 1, 1, .empty⟩], 1⟩
      = [(1, [⟨"b", 1, 2, "edit", [⟨"edit", 1, 9, .empty⟩], 8⟩])] := by decide

/-- `unregisterClient` is a no-op when the client id is not in its
document's set. -/
lemma unregisterClient_absent (h : Registry) (c : CEntry) (s : List CEntry)
    (hs : lookupDoc h c.documentId = some s)
    (hno : (s.any fun x => x.id = c.id) = false) :
    unregisterClient h c = h := by
  unfold unregisterClient
  rw [hs]
  simp only [hno, Bool.false_eq_true, if_false]

/-- C9 (amended): a broadcast finding a client's queue saturated closes that
queue and removes the client from its document's set, and still delivers
the message to every other registered client of the document (each gains
exactly the broadcast message); but the remaining peers are *not* notified
of the departure — the eviction emits no `"user_leave"`, and a subsequent
`unregisterClient` of the evicted client is a no-op. -/
theorem broadcast_evictsSlow_deliversOthers (h : Registry) (sl sr : List CEntry)
    (vic : CEntry) (m : WireMsg)
    (hs : lookupDoc h m.documentId = some (sl ++ vic :: sr))
    (hvd : vic.documentId = m.documentId)
    (hfull : vic.cap ≤ vic.queue.length)
    (hroom : ∀ x ∈ sl ++ sr, x.queue.length < x.cap)
    (hid : ∀ x ∈ sl ++ sr, x.id ≠ vic.id) :
    broadcastToDocument h m
      = setDoc h m.documentId
          ((sl.map fun x => { x with queue := x.queue ++ [m] })
            ++ sr.map fun x => { x with queue := x.queue ++ [m] }) ∧
    unregisterClient (broadcastToDocument h m) vic = broadcastToDocument h m := by
  have hbd : broadcastToDocument h m = setDoc h m.documentId
      ((sl.map fun x => { x with queue := x.queue ++ [m] })
        ++ sr.map fun x => { x with queue := x.queue ++ [m] }) := by
    rw [broadcastToDocument_found _ _ _ hs]
    congr 1
    unfold deliverAll
    rw [List.filterMap_append]
    congr 1
    · have := deliverAll_room sl m fun x hx => hroom x (by simp [hx])
      unfold deliverAll at this
      exact this
    · rw [List.filterMap_cons, if_neg (by omega)]
      have := deliverAll_room sr m fun x hx => hroom x (by simp [hx])
      unfold deliverAll at this
      exact this
  refine ⟨hbd, ?_⟩
  rw [hbd]
  have hany : (((sl.map fun x : CEntry => { x with queue := x.queue ++ [m] })
      ++ sr.map fun x : CEntry => { x with queue := x.queue ++ [m] }).any
        fun x => x.id = vic.id) = false := by
    rw [List.any_eq_false]
    intro x hx
    rcases List.mem_append.mp hx with hxx | hxx <;>
    · obtain ⟨y, hy, rfl⟩ := List.mem_map.mp hxx
      simpa using hid y (by simp [hy])
  exact unregisterClient_absent _ _ _
    (by rw [hvd]; exact lookupDoc_setDoc_self h m.documentId _) hany

/-- Witness for C9 (amended) at a concrete input: `"a"` saturated, `"b"`
healthy; the broadcast delivers to `"b"` alone, removes `"a"`, and the
follow-up unregister of `"a"` changes nothing. -/
theorem broadcast_evictsSlow_deliversOthers_witness :
    broadcastToDocument
        [(1, [⟨"a", 1, 1, "edit", [⟨"cursor", 1, 1, .empty⟩], 1⟩,
              ⟨"b", 1, 2, "edit", [], 8⟩])]
        ⟨"edit", 1, 9, .empty⟩
      = [(1, [⟨"b", 1, 2, "edit", [⟨"edit", 1, 9, .empty⟩], 8⟩])] ∧
    unregisterClient (broadcastToDocument
        [(1, [⟨"a", 1, 1, "edit", [⟨"cursor", 1, 1, .empty⟩], 1⟩,
              ⟨"b", 1, 2, "edit", [], 8⟩])]
        ⟨"edit", 1, 9, .empty⟩)
        ⟨"a", 1, 1, "edit", [⟨"cursor", 1, 1, .empty⟩], 1⟩
      = broadcastToDocument
        [(1, [⟨"a", 1, 1, "edit", [⟨"cursor", 1, 1, .empty⟩], 1⟩,
              ⟨"b", 1, 2, "edit", [], 8⟩])]
        ⟨"edit", 1, 9, .empty⟩ :=
  broadcast_evictsSlow_deliversOthers
    [(1, [⟨"a", 1, 1, "edit", [⟨"cursor", 1, 1, .empty⟩], 1⟩,
          ⟨"b", 1, 2, "edit", [], 8⟩])]
    [] [⟨"b", 1, 2, "edit", [], 8⟩]
    ⟨"a", 1, 1, "edit", [⟨"cursor", 1, 1, .empty⟩], 1⟩
    ⟨"edit", 1, 9, .empty⟩
    (by decide) rfl (by decide) (by decide) (by decide)

/-! ## Claim C10: sequences of hub operations

The registry invariants are stated over arbitrary sequences of the three
hub operations.  `calmOp` captures the healthy-run side conditions under
which the amended bookkeeping identity is stated: registrations use a fresh
id and a fresh empty queue of positive capacity, and no queue is saturated
when a send loop visits it (so no evictions occur). -/

/-- Every client id in the registry, in registry order. -/
def allIds (h : Registry) : List String := (h.map fun p => p.2.map (·.id)).flatten

/-- One hub operation, as dispatched by `Hub.Run`. -/
inductive HubOp
  | reg (c : CEntry)
  | unreg (c : CEntry)
  | bcast (m : WireMsg)
  deriving Repr, DecidableEq

def hubStep (h : Registry) : HubOp → Registry
  | .reg c => registerClient h c
  | .unreg c => unregisterClient h c
  | .bcast m => broadcastToDocument h m

def hubRun (h : Registry) : List HubOp → Registry
  | [] => h
  | op :: rest => hubRun (hubStep h op) rest

/-- Healthy-run side condition for one operation against the current
registry. -/
def calmOp (h : Registry) : HubOp → Bool
  | .reg c => ((allIds h).all fun i => i ≠ c.id) && c.queue.isEmpty
      && decide (0 < c.cap)
      && (docSet h c.documentId).all fun x => decide (x.queue.length < x.cap)
  | .unreg c => (docSet h c.documentId).all fun x =>
      x.id = c.id || decide (x.queue.length < x.cap)
  | .bcast m => (docSet h m.documentId).all fun x => decide (x.queue.length < x.cap)

def calmRun (h : Registry) : List HubOp → Bool
  | [] => true
  | op :: rest => calmOp h op && calmRun (hubStep h op) rest

/-- `+1` contributed to document `d`'s count by a registration. -/
def regInc (d : Int) : HubOp → Nat
  | .reg c => if c.documentId = d then 1 else 0
  | _ => 0

/-- `+1` contributed by an unregister that actually finds its client
(a "matching removal"). -/
def unregDec (h : Registry) (d : Int) : HubOp → Nat
  | .unreg c =>
    if c.documentId = d ∧ ((docSet h d).any fun x => x.id = c.id) then 1 else 0
  | _ => 0

/-- Number of registrations targeting document `d` in a sequence. -/
def regsFor (d : Int) : List HubOp → Nat
  | [] => 0
  | op :: rest => regInc d op + regsFor d rest

/-- Number of matching removals for document `d` along a run. -/
def matchedFor (d : Int) (h : Registry) : List HubOp → Nat
  | [] => 0
  | op :: rest => unregDec h d op + matchedFor d (hubStep h op) rest

/-! ### Structure lemmas for the registry id multiset -/

lemma allIds_cons (k : Int) (v : List CEntry) (t : Registry) :
    allIds ((k, v) :: t) = v.map (·.id) ++ allIds t := rfl

lemma docSet_cons (k : Int) (v : List CEntry) (t : Registry) (d : Int) :
    docSet ((k, v) :: t) d = if k = d then v else docSet t d := by
  by_cases hk : k = d <;> simp [docSet, lookupDoc_cons, hk]

/-- `setDoc` replaces exactly the segment of `allIds` contributed by the
first binding of `d` (appending a fresh segment when the key is absent). -/
lemma allIds_setDoc (h : Registry) (d : Int) (s : List CEntry) :
    ∃ pre post, allIds h = pre ++ (docSet h d).map (·.id) ++ post ∧
      allIds (setDoc h d s) = pre ++ s.map (·.id) ++ post := by
  induction h with
  | nil =>
    refine ⟨[], [], by simp [allIds, docSet, lookupDoc], ?_⟩
    simp [setDoc, allIds]
  | cons p t ih =>
    obtain ⟨k, v⟩ := p
    by_cases hk : k = d
    · subst hk
      refine ⟨[], allIds t, ?_, ?_⟩
      · simp [allIds_cons, docSet_cons]
      · simp [setDoc, allIds_cons]
    · obtain ⟨pre, post, h1, h2⟩ := ih
      refine ⟨v.map (·.id) ++ pre, post, ?_, ?_⟩
      · rw [allIds_cons, docSet_cons, if_neg hk, h1]
        simp [List.append_assoc]
      · rw [setDoc, if_neg hk, allIds_cons, h2]
        simp [List.append_assoc]

lemma nodup_setDoc_of_sublist (h : Registry) (d : Int) (s : List CEntry)
    (hsub : (s.map (·.id)).Sublist ((docSet h d).map (·.id)))
    (hn : (allIds h).Nodup) : (allIds (setDoc h d s)).Nodup := by
  obtain ⟨pre, post, h1, h2⟩ := allIds_setDoc h d s
  rw [h2]
  rw [h1] at hn
  exact List.Nodup.sublist
    (((List.Sublist.refl pre).append hsub).append (List.Sublist.refl post)) hn

lemma nodup_setDoc_of_fresh_append (h : Registry) (d : Int) (s : List CEntry)
    (cid : String)
    (hids : s.map (·.id) = (docSet h d).map (·.id) ++ [cid])
    (hfresh : cid ∉ allIds h) (hn : (allIds h).Nodup) :
    (allIds (setDoc h d s)).Nodup := by
  obtain ⟨pre, post, h1, h2⟩ := allIds_setDoc h d s
  rw [h2, hids]
  rw [h1] at hn hfresh
  have hassoc : pre ++ ((docSet h d).map (·.id) ++ [cid]) ++ post
      = (pre ++ (docSet h d).map (·.id)) ++ (cid :: post) := by
    simp [List.append_assoc]
  rw [hassoc]
  have hperm : ((pre ++ (docSet h d).map (·.id)) ++ cid :: post).Perm
      (cid :: ((pre ++ (docSet h d).map (·.id)) ++ post)) := List.perm_middle
  rw [hperm.nodup_iff, List.nodup_cons]
  constructor
  · intro hmem
    exact hfresh (by simpa [List.append_assoc] using hmem)
  · simpa [List.append_assoc] using hn

lemma allIds_dropDoc_sublist (h : Registry) (d : Int) :
    (allIds (dropDoc h d)).Sublist (allIds h) := by
  induction h with
  | nil => simp [dropDoc, allIds]
  | cons p t ih =>
    obtain ⟨k, v⟩ := p
    by_cases hk : k ≠ d
    · rw [dropDoc, List.filter_cons_of_pos (by simpa using hk), allIds_cons,
        allIds_cons]
      exact List.Sublist.append_left ih _
    · rw [dropDoc, List.filter_cons_of_neg (by simpa using hk), allIds_cons]
      exact (ih : (allIds (dropDoc t d)).Sublist (allIds t)).trans
        (List.sublist_append_right _ _)

lemma lookupDoc_dropDoc_self (h : Registry) (d : Int) :
    lookupDoc (dropDoc h d) d = none := by
  induction h with
  | nil => rfl
  | cons p t ih =>
    obtain ⟨k, v⟩ := p
    by_cases hk : k ≠ d
    · rw [dropDoc, List.filter_cons_of_pos (by simpa using hk), lookupDoc_cons,
        if_neg (by tauto)]
      exact ih
    · rw [dropDoc, List.filter_cons_of_neg (by simpa using hk)]
      exact ih

lemma lookupDoc_dropDoc_ne (h : Registry) (d d' : Int) (hne : d' ≠ d) :
    lookupDoc (dropDoc h d) d' = lookupDoc h d' := by
  induction h with
  | nil => rfl
  | cons p t ih =>
    obtain ⟨k, v⟩ := p
    by_cases hk : k ≠ d
    · rw [dropDoc, List.filter_cons_of_pos (by simpa using hk), lookupDoc_cons,
        lookupDoc_cons]
      rw [dropDoc] at ih
      by_cases hkd : k = d'
      · rw [if_pos hkd, if_pos hkd]
      · rw [if_neg hkd, if_neg hkd]
        exact ih
    · have hkd : k = d := by tauto
      subst hkd
      rw [dropDoc, List.filter_cons_of_neg (by simp), lookupDoc_cons,
        if_neg (by tauto)]
      exact ih

lemma GetDocumentClientCount_eq (h : Registry) (d : Int) :
    GetDocumentClientCount h d = (docSet h d).length := by
  unfold GetDocumentClientCount docSet
  cases lookupDoc h d <;> simp

/-- With per-set unique ids, removing a present client shrinks the set by
exactly one. -/
lemma filter_ne_length (s : List CEntry) (cid : String)
    (hn : (s.map (·.id)).Nodup) (hmem : (s.any fun x => x.id = cid) = true) :
    ((s.filter fun x => x.id ≠ cid).length) + 1 = s.length := by
  induction s with
  | nil => simp at hmem
  | cons a t ih =>
    rw [List.map_cons, List.nodup_cons] at hn
    by_cases ha : a.id = cid
    · subst ha
      rw [List.filter_cons_of_neg (by simp)]
      have hrest : (t.filter fun x => x.id ≠ a.id) = t := by
        rw [List.filter_eq_self]
        intro x hx
        simp only [decide_eq_true_eq]
        intro hxx
        exact hn.1 (hxx ▸ List.mem_map_of_mem (·.id) hx)
      rw [hrest]
      simp
    · rw [List.filter_cons_of_pos (by simpa using ha)]
      have hmt : (t.any fun x => x.id = cid) = true := by
        rcases List.any_eq_true.mp hmem with ⟨x, hx, hxx⟩
        rcases List.mem_cons.mp hx with rfl | hx'
        · exact absurd (by simpa using hxx) ha
        · exact List.any_eq_true.mpr ⟨x, hx', hxx⟩
      have := ih hn.2 hmt
      simp only [List.length_cons]
      omega

lemma docSet_id_mem (h : Registry) (d : Int) (x : CEntry)
    (hx : x ∈ docSet h d) : x.id ∈ allIds h := by
  obtain ⟨pre, post, h1, _⟩ := allIds_setDoc h d []
  rw [h1]
  have : x.id ∈ (docSet h d).map (·.id) := List.mem_map_of_mem (·.id) hx
  simp [this]

lemma docSet_ids_nodup (h : Registry) (d : Int) (hn : (allIds h).Nodup) :
    ((docSet h d).map (·.id)).Nodup := by
  obtain ⟨pre, post, h1, _⟩ := allIds_setDoc h d []
  rw [h1] at hn
  exact (hn.of_append_left).of_append_right

lemma calmOp_reg_elim (h : Registry) (c : CEntry)
    (hc : calmOp h (.reg c) = true) :
    c.id ∉ allIds h ∧ c.queue = [] ∧ 0 < c.cap ∧
      (∀ x ∈ docSet h c.documentId, x.queue.length < x.cap) ∧
      ∀ x ∈ docSet h c.documentId, x.id ≠ c.id := by
  simp only [calmOp, Bool.and_eq_true, List.all_eq_true, decide_eq_true_eq,
    List.isEmpty_iff] at hc
  obtain ⟨⟨⟨h1, h2⟩, h3⟩, h4⟩ := hc
  exact ⟨fun hmem => (h1 _ hmem) rfl, h2, h3, h4,
    fun x hx => h1 _ (docSet_id_mem h _ x hx)⟩

lemma calmOp_unreg_elim (h : Registry) (c : CEntry)
    (hc : calmOp h (.unreg c) = true) :
    ∀ x ∈ docSet h c.documentId, x.id ≠ c.id → x.queue.length < x.cap := by
  simp only [calmOp, List.all_eq_true, Bool.or_eq_true, decide_eq_true_eq] at hc
  intro x hx hne
  rcases hc x hx with h1 | h2
  · exact absurd h1 hne
  · exact h2

lemma calmOp_bcast_elim (h : Registry) (m : WireMsg)
    (hc : calmOp h (.bcast m) = true) :
    ∀ x ∈ docSet h m.documentId, x.queue.length < x.cap := by
  simpa [calmOp, List.all_eq_true] using hc

/-- A calm registration, phrased through `calmOp`. -/
lemma registerClient_step (h : Registry) (c : CEntry)
    (hc : calmOp h (.reg c) = true) :
    registerClient h c = setDoc h c.documentId
      (docSet h c.documentId ++ [{ c with queue := [hubConfirmMsg c] }]) := by
  obtain ⟨_, hq, hcap, _, hfreshS⟩ := calmOp_reg_elim h c hc
  exact registerClient_calm h c hfreshS hq hcap

/-- A found unregistration: the set is rewritten to the remaining clients,
and the binding is dropped when the set became empty. -/
lemma unregisterClient_found (h : Registry) (c : CEntry) (s : List CEntry)
    (hs : lookupDoc h c.documentId = some s)
    (hin : (s.any fun x => x.id = c.id) = true) :
    unregisterClient h c =
      if ((s.filter fun x => x.id ≠ c.id).length) = 0
      then dropDoc (setDoc h c.documentId (s.filter fun x => x.id ≠ c.id))
        c.documentId
      else setDoc h c.documentId (s.filter fun x => x.id ≠ c.id) := by
  unfold unregisterClient
  rw [hs]
  simp only [hin, if_true]

lemma docSet_lookup_some (h : Registry) (d : Int) (s : List CEntry)
    (hs : lookupDoc h d = some s) : docSet h d = s := by
  unfold docSet
  rw [hs]
  rfl

lemma docSet_lookup_none (h : Registry) (d : Int)
    (hs : lookupDoc h d = none) : docSet h d = [] := by
  unfold docSet
  rw [hs]
  rfl

lemma docSet_setDoc_ne (h : Registry) (d d' : Int) (s : List CEntry)
    (hne : d' ≠ d) : docSet (setDoc h d s) d' = docSet h d' := by
  unfold docSet
  rw [lookupDoc_setDoc_ne h d d' s hne]

/-- One calm hub operation changes a document's reported client count by
exactly its registration contribution minus its matching-removal
contribution. -/
lemma hubStep_count (h : Registry) (op : HubOp) (d : Int)
    (hn : (allIds h).Nodup) (hc : calmOp h op = true) :
    GetDocumentClientCount (hubStep h op) d + unregDec h d op
      = GetDocumentClientCount h d + regInc d op := by
  cases op with
  | reg c =>
    rw [hubStep, registerClient_step h c hc]
    simp only [unregDec, regInc]
    by_cases hd : c.documentId = d
    · subst hd
      rw [GetDocumentClientCount_eq, docSet_setDoc_self, GetDocumentClientCount_eq]
      simp
    · rw [GetDocumentClientCount_eq, GetDocumentClientCount_eq,
        docSet_setDoc_ne h c.documentId d _ (fun hh => hd hh.symm)]
      simp [hd]
  | unreg c =>
    rcases hlu : lookupDoc h c.documentId with _ | s
    · rw [hubStep]
      unfold unregisterClient
      rw [hlu]
      simp only [unregDec, regInc]
      by_cases hd : c.documentId = d
      · subst hd
        rw [docSet_lookup_none h c.documentId hlu]
        simp
      · simp [hd]
    · have hds := docSet_lookup_some h c.documentId s hlu
      by_cases hin : (s.any fun x => x.id = c.id) = true
      · rw [hubStep, unregisterClient_found h c s hlu hin]
        simp only [unregDec, regInc]
        have hsn : (s.map (·.id)).Nodup := by
          have := docSet_ids_nodup h c.documentId hn
          rwa [hds] at this
        have hlen := filter_ne_length s c.id hsn hin
        by_cases hd : c.documentId = d
        · subst hd
          have hcount : GetDocumentClientCount
              (if ((s.filter fun x => x.id ≠ c.id).length) = 0
               then dropDoc (setDoc h c.documentId
                 (s.filter fun x => x.id ≠ c.id)) c.documentId
               else setDoc h c.documentId (s.filter fun x => x.id ≠ c.id))
              c.documentId
              = (s.filter fun x => x.id ≠ c.id).length := by
            split
            · next hzero =>
              unfold GetDocumentClientCount
              rw [lookupDoc_dropDoc_self]
              exact hzero.symm
            · rw [GetDocumentClientCount_eq, docSet_setDoc_self]
          rw [hcount, GetDocumentClientCount_eq, hds]
          rw [if_pos ⟨rfl, hin⟩]
          omega
        · have hcount : GetDocumentClientCount
              (if ((s.filter fun x => x.id ≠ c.id).length) = 0
               then dropDoc (setDoc h c.documentId
                 (s.filter fun x => x.id ≠ c.id)) c.documentId
               else setDoc h c.documentId (s.filter fun x => x.id ≠ c.id))
              d = GetDocumentClientCount h d := by
            split
            · unfold GetDocumentClientCount
              rw [lookupDoc_dropDoc_ne _ _ _ (fun hh => hd hh.symm),
                lookupDoc_setDoc_ne _ _ _ _ (fun hh => hd hh.symm)]
            · unfold GetDocumentClientCount
              rw [lookupDoc_setDoc_ne _ _ _ _ (fun hh => hd hh.symm)]
          rw [hcount]
          simp [hd]
      · rw [hubStep]
        unfold unregisterClient
        rw [hlu]
        simp only [Bool.not_eq_true] at hin
        simp only [hin, Bool.false_eq_true, if_false, unregDec, regInc]
        by_cases hd : c.documentId = d
        · subst hd
          rw [if_neg (by rw [hds]; simp [hin])]
        · simp [hd]
  | bcast m =>
    have hroom := calmOp_bcast_elim h m hc
    rcases hlu : lookupDoc h m.documentId with _ | s
    · rw [hubStep, broadcastToDocument_absent h m hlu]
      simp [unregDec, regInc]
    · have hds := docSet_lookup_some h m.documentId s hlu
      rw [hds] at hroom
      rw [hubStep, broadcastToDocument_found h m s hlu, deliverAll_room s m hroom]
      simp only [unregDec, regInc]
      by_cases hd : m.documentId = d
      · subst hd
        rw [GetDocumentClientCount_eq, docSet_setDoc_self,
          GetDocumentClientCount_eq, hds]
        simp
      · rw [GetDocumentClientCount_eq, GetDocumentClientCount_eq,
          docSet_setDoc_ne h m.documentId d _ (fun hh => hd hh.symm)]

/-- One calm hub operation preserves global uniqueness of client ids. -/
lemma hubStep_nodup (h : Registry) (op : HubOp)
    (hn : (allIds h).Nodup) (hc : calmOp h op = true) :
    (allIds (hubStep h op)).Nodup := by
  cases op with
  | reg c =>
    obtain ⟨hfresh, _, _, _, _⟩ := calmOp_reg_elim h c hc
    rw [hubStep, registerClient_step h c hc]
    apply nodup_setDoc_of_fresh_append h c.documentId _ c.id _ hfresh hn
    simp [List.map_map, Function.comp]
  | unreg c =>
    rcases hlu : lookupDoc h c.documentId with _ | s
    · rw [hubStep]
      unfold unregisterClient
      rw [hlu]
      exact hn
    · have hds := docSet_lookup_some h c.documentId s hlu
      by_cases hin : (s.any fun x => x.id = c.id) = true
      · rw [hubStep, unregisterClient_found h c s hlu hin]
        have hsub : ((s.filter fun x => x.id ≠ c.id).map (·.id)).Sublist
            ((docSet h c.documentId).map (·.id)) := by
          rw [hds]
          exact (s.filter_sublist).map (·.id)
        have hsd := nodup_setDoc_of_sublist h c.documentId _ hsub hn
        split
        · exact List.Nodup.sublist (allIds_dropDoc_sublist _ _) hsd
        · exact hsd
      · rw [hubStep]
        unfold unregisterClient
        rw [hlu]
        simp only [Bool.not_eq_true] at hin
        simp only [hin, Bool.false_eq_true, if_false]
        exact hn
  | bcast m =>
    rcases hlu : lookupDoc h m.documentId with _ | s
    · rw [hubStep, broadcastToDocument_absent h m hlu]
      exact hn
    · have hroom := calmOp_bcast_elim h m hc
      have hds := docSet_lookup_some h m.documentId s hlu
      rw [hds] at hroom
      rw [hubStep, broadcastToDocument_found h m s hlu, deliverAll_room s m hroom]
      apply nodup_setDoc_of_sublist h m.documentId _ _ hn
      rw [hds]
      have h1 : ((s.map fun x => { x with queue := x.queue ++ [m] }).map (·.id))
          = s.map (·.id) := by
        simp [List.map_map, Function.comp]
      rw [h1]

lemma hubRun_nodup : ∀ (ops : List HubOp) (h : Registry),
    (allIds h).Nodup → calmRun h ops = true →
    (allIds (hubRun h ops)).Nodup := by
  intro ops
  induction ops with
  | nil => intro h hn _; exact hn
  | cons op rest ih =>
    intro h hn hc
    rw [calmRun, Bool.and_eq_true] at hc
    exact ih (hubStep h op) (hubStep_nodup h op hn hc.1) hc.2

lemma hubRun_count (d : Int) : ∀ (ops : List HubOp) (h : Registry),
    (allIds h).Nodup → calmRun h ops = true →
    GetDocumentClientCount (hubRun h ops) d + matchedFor d h ops
      = GetDocumentClientCount h d + regsFor d ops := by
  intro ops
  induction ops with
  | nil => intro h _ _; simp [hubRun, matchedFor, regsFor]
  | cons op rest ih =>
    intro h hn hc
    rw [calmRun, Bool.and_eq_true] at hc
    have hstep := hubStep_count h op d hn hc.1
    have hrest := ih (hubStep h op) (hubStep_nodup h op hn hc.1) hc.2
    simp only [hubRun, matchedFor, regsFor]
    omega

/-! ## Claim C10 -/

/-- C10 counterexample: from the empty registry, register a client with
queue capacity 1 (its `"connected"` confirmation fills the queue), then
broadcast once.  The broadcast evicts the client with
`delete(clients, clientId)` but never deletes the now-empty inner map, so
the registry is left holding a dangling empty per-document set — only
`unregisterClient` removes empty sets. -/
theorem registry_emptySet_counterexample :
    hubRun [] [.reg ⟨"a", 1, 1, "edit", [], 1⟩, .bcast ⟨"edit", 1, 2, .empty⟩]
      = [(1, [])] ∧
    lookupDoc (hubRun []
        [.reg ⟨"a", 1, 1, "edit", [], 1⟩, .bcast ⟨"edit", 1, 2, .empty⟩]) 1
      = some [] := by decide

/-- C10 (amended): over any calm sequence of hub operations from the empty
registry (registrations use fresh ids and fresh queues of positive
capacity, and no queue saturates, so no evictions occur): (1) the client
ids in the registry are globally unique — no id is in two documents' sets
or twice in one set; (2) a document's reported client count plus its
matching removals equals its registrations (counts are naturals, so never
negative); and (3) an unknown document always reports count 0.  The claim's
remaining conjunct is false: an eviction can leave a dangling empty
per-document set, since only `unregisterClient` deletes empty sets. -/
theorem registry_invariants :
    (∀ ops : List HubOp, calmRun [] ops = true →
        (allIds (hubRun [] ops)).Nodup) ∧
    (∀ (ops : List HubOp) (d : Int), calmRun [] ops = true →
        GetDocumentClientCount (hubRun [] ops) d + matchedFor d [] ops
          = regsFor d ops) ∧
    (∀ (h : Registry) (d : Int), lookupDoc h d = none →
        GetDocumentClientCount h d = 0) := by
  refine ⟨fun ops hc => hubRun_nodup ops [] (by simp [allIds]) hc,
    fun ops d hc => ?_, fun h d hl => ?_⟩
  · have := hubRun_count d ops [] (by simp [allIds]) hc
    simpa [GetDocumentClientCount, lookupDoc] using this
  · unfold GetDocumentClientCount
    rw [hl]

/-- Witness for C10 (amended) at a concrete run: register `"a"` and `"b"`
on document 1, then unregister `"a"`; ids stay unique, and count (1) plus
matching removals (1) equals registrations (2); the empty registry reports
0 for document 5. -/
theorem registry_invariants_witness :
    (allIds (hubRun [] [.reg ⟨"a", 1, 1, "edit", [], 8⟩,
        .reg ⟨"b", 1, 2, "edit", [], 8⟩,
        .unreg ⟨"a", 1, 1, "edit", [], 8⟩])).Nodup ∧
    (GetDocumentClientCount (hubRun [] [.reg ⟨"a", 1, 1, "edit", [], 8⟩,
        .reg ⟨"b", 1, 2, "edit", [], 8⟩,
        .unreg ⟨"a", 1, 1, "edit", [], 8⟩]) 1
      + matchedFor 1 [] [.reg ⟨"a", 1, 1, "edit", [], 8⟩,
          .reg ⟨"b", 1, 2, "edit", [], 8⟩,
          .unreg ⟨"a", 1, 1, "edit", [], 8⟩]
      = regsFor 1 [.reg ⟨"a", 1, 1, "edit", [], 8⟩,
          .reg ⟨"b", 1, 2, "edit", [], 8⟩,
          .unreg ⟨"a", 1, 1, "edit", [], 8⟩]) ∧
    GetDocumentClientCount [] 5 = 0 :=
  ⟨registry_invariants.1 _ (by decide),
   registry_invariants.2.1 _ 1 (by decide),
   registry_invariants.2.2 [] 5 rfl⟩

end LiveCollab
